import Mathlib

/-!
Verification of the presentation layer of the `orange_git_fish` desktop
source-control client (files `src/unnamed/part_000` and `src/ui/main.js`).

The development shallowly embeds the four core mechanisms of the UI:

* the activity counter (`Main.addProcessCount` / `Main.removeProcessCount`),
* the label truncation loop (`Main.truncateFilePathText`),
* the outbound-command button handlers of `Main.run` and friends,
* the branch-tree rebuild and expansion-state reconciliation
  (`Main.buildBranchResultHTML` / `Main.updateBranchInfo`).

JavaScript numbers used by these routines are plain small integers, embedded
as `Int`; strings are embedded as `List Char`; DOM side effects that matter to
the properties (showing and hiding the main spinner, raising an alert) are
recorded as explicit event lists.
-/

namespace OGF

/-- A spinner signal recorded by the activity counter: `busy` stands for the
jQuery call showing the main spinner, `idle` for the call hiding it. -/
inductive Signal where
  | busy
  | idle
deriving DecidableEq, Repr

/-- `Main.addProcessCount` (`src/unnamed/part_000` lines 222-225):
increments `this.processCount` and shows the main spinner.  The returned pair
is the new counter value and the spinner calls made, in order. -/
def addProcessCount (c : Int) : Int × List Signal :=
  (c + 1, [Signal.busy])

/-- `Main.removeProcessCount` (`src/unnamed/part_000` lines 227-236):
decrements `this.processCount`; if the result is `<= 0` it hides the main
spinner, and if the result is `< 0` it additionally resets the counter to 0.
The returned pair is the new counter value and the spinner calls made. -/
def removeProcessCount (c : Int) : Int × List Signal :=
  let c2 := c - 1
  if c2 ≤ 0 then
    (if c2 < 0 then 0 else c2, [Signal.idle])
  else
    (c2, [])

/-- One interaction with the activity counter: `start` is a call of
`addProcessCount` (a `start-process` event or an outbound command), `stop` is
a call of `removeProcessCount` (an `end-process`, `update_all` or `error`
event). -/
inductive Op where
  | start
  | stop
deriving DecidableEq, Repr

/-- Apply one counter operation to the current counter value. -/
def stepOp (c : Int) : Op → Int × List Signal
  | Op.start => addProcessCount c
  | Op.stop => removeProcessCount c

/-- Run a whole interleaving of counter operations from counter value `c`,
collecting the spinner signals in order. -/
def runOps : Int → List Op → Int × List Signal
  | c, [] => (c, [])
  | c, op :: rest =>
      let s := stepOp c op
      let r := runOps s.1 rest
      (r.1, s.2 ++ r.2)

/-- Number of `start` operations in an interleaving (the `N` of the claim). -/
def countStarts : List Op → Nat
  | [] => 0
  | Op.start :: r => countStarts r + 1
  | Op.stop :: r => countStarts r

/-- Number of `stop` operations in an interleaving (the `M` of the claim). -/
def countStops : List Op → Nat
  | [] => 0
  | Op.start :: r => countStops r
  | Op.stop :: r => countStops r + 1

/-- Number of `idle` (spinner hide) signals in a signal trace. -/
def countIdle : List Signal → Nat
  | [] => 0
  | Signal.idle :: r => countIdle r + 1
  | Signal.busy :: r => countIdle r

/-- Number of steps of the run at which the counter moves into 0 from a
strictly positive value. -/
def idleTransitions : Int → List Op → Nat
  | _, [] => 0
  | c, op :: rest =>
      (if 0 < c ∧ (stepOp c op).1 = 0 then 1 else 0) + idleTransitions (stepOp c op).1 rest

/-- `noUnderflow c ops` holds when, running `ops` from counter value `c`, no
`stop` is ever applied to a counter value below 1 — i.e. no prefix of the
interleaving contains more `stop`s than `start`s (counting from `c`), so the
clamp-at-zero branch of `removeProcessCount` is never taken. -/
def noUnderflow : Int → List Op → Bool
  | _, [] => true
  | c, Op.start :: r => noUnderflow (c + 1) r
  | c, Op.stop :: r => decide (1 ≤ c) && noUnderflow (c - 1) r

theorem runOps_nonneg : ∀ (ops : List Op) (c : Int), 0 ≤ c → 0 ≤ (runOps c ops).1 := by
  intro ops
  induction ops with
  | nil => intro c hc; simpa [runOps] using hc
  | cons op rest ih =>
      intro c hc
      cases op with
      | start =>
          simpa [runOps, stepOp, addProcessCount] using ih (c + 1) (by omega)
      | stop =>
          by_cases h1 : c - 1 ≤ 0
          · by_cases h2 : c - 1 < 0
            · simpa [runOps, stepOp, removeProcessCount, h1, h2] using ih 0 (by omega)
            · simpa [runOps, stepOp, removeProcessCount, h1, h2] using ih (c - 1) (by omega)
          · simpa [runOps, stepOp, removeProcessCount, h1] using ih (c - 1) (by omega)

theorem runOps_val_noUnderflow :
    ∀ (ops : List Op) (c : Int), noUnderflow c ops = true →
      (runOps c ops).1 = c + countStarts ops - countStops ops := by
  intro ops
  induction ops with
  | nil => intro c _; simp [runOps, countStarts, countStops]
  | cons op rest ih =>
      intro c hg
      cases op with
      | start =>
          simp only [noUnderflow] at hg
          have h := ih (c + 1) hg
          simp only [runOps, stepOp, addProcessCount, countStarts, countStops]
          rw [h]
          push_cast
          ring
      | stop =>
          simp only [noUnderflow, Bool.and_eq_true, decide_eq_true_eq] at hg
          obtain ⟨hc1, hg⟩ := hg
          have h := ih (c - 1) hg
          have hrm : (stepOp c Op.stop).1 = c - 1 := by
            simp only [stepOp, removeProcessCount]
            split_ifs with h1 h2
            · exact absurd h2 (by omega)
            · rfl
            · rfl
          simp only [runOps, hrm, countStarts, countStops]
          rw [h]
          push_cast
          ring

theorem runOps_idle_noUnderflow :
    ∀ (ops : List Op) (c : Int), noUnderflow c ops = true →
      countIdle (runOps c ops).2 = idleTransitions c ops := by
  intro ops
  induction ops with
  | nil => intro c _; simp [runOps, countIdle, idleTransitions]
  | cons op rest ih =>
      intro c hg
      cases op with
      | start =>
          simp only [noUnderflow] at hg
          have h := ih (c + 1) hg
          have hcond : ¬ (0 < c ∧ c + 1 = 0) := by omega
          simp only [runOps, stepOp, addProcessCount, idleTransitions, List.singleton_append,
            List.nil_append, countIdle]
          rw [if_neg hcond]
          simpa using h
      | stop =>
          simp only [noUnderflow, Bool.and_eq_true, decide_eq_true_eq] at hg
          obtain ⟨hc1, hg⟩ := hg
          have h := ih (c - 1) hg
          have hnotlt : ¬ (c - 1 < 0) := by omega
          by_cases hle : c - 1 ≤ 0
          · have hc : c = 1 := by omega
            subst hc
            have hrm : removeProcessCount 1 = (0, [Signal.idle]) := by
              simp only [removeProcessCount]
              norm_num
            norm_num at h
            simp only [runOps, stepOp, hrm, idleTransitions, List.singleton_append,
              List.nil_append, countIdle]
            simp [h, Nat.add_comm]
          · have hrm : removeProcessCount c = (c - 1, []) := by
              simp only [removeProcessCount]
              rw [if_neg hle]
            have hcond : ¬ (0 < c ∧ c - 1 = 0) := by omega
            simp only [runOps, stepOp, hrm, idleTransitions, List.nil_append]
            rw [if_neg hcond, h]
            omega

/-- C1, counterexample: in the interleaving `end(); start()` (N = 1, M = 1) the
clamp of `removeProcessCount` fires first, so the final counter value is 1 and
not `max 0 (N - M) = 0`.  The claim is false for interleavings in which an
`end()` arrives while the counter is 0. -/
theorem processCount_interleaving_cex :
    ¬ ((runOps 0 [Op.stop, Op.start]).1 =
        max 0 ((countStarts [Op.stop, Op.start] : Int) - countStops [Op.stop, Op.start])) := by
  decide

/-- C1 (amended): for every interleaving of N `start()` and M `end()` calls in
which no `end()` arrives while the counter is 0 (equivalently, every prefix
contains at least as many `start()`s as `end()`s), the final counter value is
`max 0 (N - M)` (which then equals `N - M`), and the idle signal (the spinner
hide call) is emitted exactly once per transition of the counter into 0 from a
positive value. -/
theorem processCount_interleaving (ops : List Op) (h : noUnderflow 0 ops = true) :
    (runOps 0 ops).1 = max 0 ((countStarts ops : Int) - countStops ops) ∧
    countIdle (runOps 0 ops).2 = idleTransitions 0 ops := by
  have hval := runOps_val_noUnderflow ops 0 h
  have hidle := runOps_idle_noUnderflow ops 0 h
  have hnn := runOps_nonneg ops 0 le_rfl
  refine ⟨?_, hidle⟩
  rw [hval]
  rw [hval] at hnn
  omega

/-- The end-to-end scenario of the spec: three overlapping commands are
issued, then three completions arrive. -/
def demoOps : List Op := [Op.start, Op.start, Op.start, Op.stop, Op.stop, Op.stop]

/-- Witness for `processCount_interleaving` at the spec's three-command
scenario: the hypothesis holds and the counter ends at 0 with exactly one idle
transition. -/
theorem processCount_interleaving_witness :
    noUnderflow 0 demoOps = true ∧
      ((runOps 0 demoOps).1 = max 0 ((countStarts demoOps : Int) - countStops demoOps) ∧
        countIdle (runOps 0 demoOps).2 = idleTransitions 0 demoOps) :=
  ⟨by decide, processCount_interleaving demoOps (by decide)⟩

/-- C6, counterexample to the sub-claim that a clamped decrement does not
re-signal idle: an `end()` with no matching `start()` (counter at 0) still
emits the spinner-hide (idle) signal — `removeProcessCount` calls
`$(mainSpinner).hide()` whenever the decremented value is `<= 0`, before
clamping. -/
theorem processCount_clamp_cex :
    runOps 0 [Op.stop] = (0, [Signal.idle]) ∧ Signal.idle ∈ (runOps 0 [Op.stop]).2 := by
  decide

/-- C6 (amended): the counter is never negative after any sequence of
operations from the initial state 0; a decrement that would go below 0 is
clamped to 0 and the unmatched `end()` leaves the counter at 0 — but the
clamped decrement does re-emit the spinner-hide (idle) signal (harmless in the
UI because the spinner is already hidden). -/
theorem processCount_nonneg :
    (∀ ops : List Op, 0 ≤ (runOps 0 ops).1) ∧
      removeProcessCount 0 = (0, [Signal.idle]) := by
  refine ⟨fun ops => runOps_nonneg ops 0 le_rfl, by decide⟩

/-- A UI-visible event of the error listener: a spinner show/hide call or the
`alert(ev.payload)` call surfacing the error message. -/
inductive UiEvent where
  | spinnerBusy
  | spinnerIdle
  | alertMsg (msg : List Char)
deriving DecidableEq, Repr

/-- Spinner signals viewed as UI events. -/
def liftSignal : Signal → UiEvent
  | Signal.busy => UiEvent.spinnerBusy
  | Signal.idle => UiEvent.spinnerIdle

/-- The `error` event listener of `Main.run` (`src/unnamed/part_000` lines
111-115, identical in `src/ui/main.js` lines 71-75): it first calls
`removeProcessCount` and then `alert`s the payload.  The result is the new
counter value and the ordered trace of UI events the handler performs. -/
def errorListener (c : Int) (msg : List Char) : Int × List UiEvent :=
  let r := removeProcessCount c
  (r.1, r.2.map liftSignal ++ [UiEvent.alertMsg msg])

/-- C7: on every inbound `error` event the coordinator applies the counter
decrement (and its spinner signals) strictly before surfacing the error
message, and after an error with exactly one in-flight command the counter is
0 and the spinner-hide call precedes the alert — the busy indicator is not
left stuck. -/
theorem errorListener_order (c : Int) (msg : List Char) :
    ((errorListener c msg).1 = (removeProcessCount c).1 ∧
      ∃ pre, (errorListener c msg).2 = pre ++ [UiEvent.alertMsg msg] ∧
        UiEvent.alertMsg msg ∉ pre) ∧
    errorListener 1 msg = (0, [UiEvent.spinnerIdle, UiEvent.alertMsg msg]) := by
  refine ⟨⟨rfl, ⟨(removeProcessCount c).2.map liftSignal, rfl, ?_⟩⟩, ?_⟩
  · intro hmem
    rcases List.mem_map.mp hmem with ⟨s, _, hs⟩
    cases s <;> simp [liftSignal] at hs
  · have hrm : removeProcessCount 1 = (0, [Signal.idle]) := by decide
    simp [errorListener, hrm, liftSignal]

/-- An outbound command tag, one per `emit(...)` call in the UI sources
(payloads are carried alongside in the source and are irrelevant to the
counter-bracketing property). -/
inductive Cmd where
  | stage
  | unstage
  | commit
  | commitPush
  | fetch
  | pull
  | push
  | checkout
  | checkoutRemote
  | branch
  | deleteLocalBranch
  | deleteRemoteBranch
  | deleteTag
  | saveCredentials
  | savePreferences
  | fileDiff
deriving DecidableEq, Repr

/-- The observable effect of one user-interaction handler: the process counter
after the handler ran (started from the given value) and the outbound commands
it emitted.  DOM-only effects (clearing text fields, hiding modals) are
omitted. -/
structure HandlerStep where
  processCount : Int
  emits : List Cmd
deriving DecidableEq, Repr

/-- `$(savePreferencesBtn).click` handler (`src/unnamed/part_000` lines
133-140): calls `addProcessCount` and emits `save-preferences`. -/
def savePreferencesBtnClick (c : Int) : HandlerStep :=
  ⟨(addProcessCount c).1, [Cmd.savePreferences]⟩

/-- `$(saveCredentialsBtn).click` handler (lines 142-149): emits
`save-credentials` without touching the counter. -/
def saveCredentialsBtnClick (c : Int) : HandlerStep :=
  ⟨c, [Cmd.saveCredentials]⟩

/-- `$(commitBtn).click` handler (lines 151-158). -/
def commitBtnClick (c : Int) : HandlerStep :=
  ⟨(addProcessCount c).1, [Cmd.commit]⟩

/-- `$(commitPushBtn).click` handler (lines 160-167). -/
def commitPushBtnClick (c : Int) : HandlerStep :=
  ⟨(addProcessCount c).1, [Cmd.commitPush]⟩

/-- `$(fetchBtn).click` handler (lines 169-172). -/
def fetchBtnClick (c : Int) : HandlerStep :=
  ⟨(addProcessCount c).1, [Cmd.fetch]⟩

/-- `$(pullBtn).click` handler (lines 174-177). -/
def pullBtnClick (c : Int) : HandlerStep :=
  ⟨(addProcessCount c).1, [Cmd.pull]⟩

/-- `$(pushBtn).click` handler (lines 189-198). -/
def pushBtnClick (c : Int) : HandlerStep :=
  ⟨(addProcessCount c).1, [Cmd.push]⟩

/-- `$(branchBtn).click` handler (lines 205-211). -/
def branchBtnClick (c : Int) : HandlerStep :=
  ⟨(addProcessCount c).1, [Cmd.branch]⟩

/-- Remote-branch row `dblclick` handler in `buildBranchResultHTML` (lines
445-448). -/
def checkoutRemoteDblClick (c : Int) : HandlerStep :=
  ⟨(addProcessCount c).1, [Cmd.checkoutRemote]⟩

/-- Local-branch row `dblclick` handler in `buildBranchResultHTML` (lines
450-453). -/
def checkoutDblClick (c : Int) : HandlerStep :=
  ⟨(addProcessCount c).1, [Cmd.checkout]⟩

/-- Context-menu delete handler for a local branch in `showContextMenu`
(lines 518-521). -/
def deleteLocalBranchBtnClick (c : Int) : HandlerStep :=
  ⟨(addProcessCount c).1, [Cmd.deleteLocalBranch]⟩

/-- Context-menu delete handler for a remote branch (lines 523-526). -/
def deleteRemoteBranchBtnClick (c : Int) : HandlerStep :=
  ⟨(addProcessCount c).1, [Cmd.deleteRemoteBranch]⟩

/-- Context-menu delete handler for a tag (lines 528-531). -/
def deleteTagBtnClick (c : Int) : HandlerStep :=
  ⟨(addProcessCount c).1, [Cmd.deleteTag]⟩

/-- Changed-file row `click` handler in `addFileChangeRow` (lines 362-368):
emits `file-diff` without touching the counter. -/
def fileChangeRowClick (c : Int) : HandlerStep :=
  ⟨c, [Cmd.fileDiff]⟩

/-- Stage button `click` handler in `updateFilesChangedInfo` (lines 396-400):
emits `stage` and does NOT call `addProcessCount`. -/
def stageBtnClick (c : Int) : HandlerStep :=
  ⟨c, [Cmd.stage]⟩

/-- Unstage button `click` handler in `updateFilesChangedInfo` (lines
405-410): emits `unstage` and does NOT call `addProcessCount`. -/
def unstageBtnClick (c : Int) : HandlerStep :=
  ⟨c, [Cmd.unstage]⟩

/-- Every handler of `src/unnamed/part_000` that emits an outbound command,
in source order. -/
def outboundHandlers : List (Int → HandlerStep) :=
  [savePreferencesBtnClick, saveCredentialsBtnClick, commitBtnClick, commitPushBtnClick,
   fetchBtnClick, pullBtnClick, pushBtnClick, branchBtnClick, fileChangeRowClick,
   stageBtnClick, unstageBtnClick, checkoutRemoteDblClick, checkoutDblClick,
   deleteLocalBranchBtnClick, deleteRemoteBranchBtnClick, deleteTagBtnClick]

/-- The outbound commands named by the claim (stage, unstage, commit, push,
fetch, pull, checkout, branch, delete and their variants). -/
def listedCmds : List Cmd :=
  [Cmd.stage, Cmd.unstage, Cmd.commit, Cmd.commitPush, Cmd.push, Cmd.fetch, Cmd.pull,
   Cmd.checkout, Cmd.checkoutRemote, Cmd.branch, Cmd.deleteLocalBranch,
   Cmd.deleteRemoteBranch, Cmd.deleteTag]

/-- The listed commands whose handlers actually bracket with the activity
counter: all of them except `stage` and `unstage`. -/
def bracketedCmds : List Cmd :=
  [Cmd.commit, Cmd.commitPush, Cmd.push, Cmd.fetch, Cmd.pull, Cmd.checkout,
   Cmd.checkoutRemote, Cmd.branch, Cmd.deleteLocalBranch, Cmd.deleteRemoteBranch,
   Cmd.deleteTag]

/-- C3, counterexample: the stage button handler emits the listed command
`stage` without incrementing the process counter (from counter value 0 it
leaves the counter at 0, not 1), so not every listed outbound command is
bracketed by `addProcessCount`. -/
theorem handlers_bracketing_cex :
    ¬ (∀ h ∈ outboundHandlers, ∀ c : Int,
        (∃ cmd ∈ (h c).emits, cmd ∈ listedCmds) → (h c).processCount = c + 1) := by
  intro H
  have h1 := H stageBtnClick (by simp [outboundHandlers]) 0
    ⟨Cmd.stage, by simp [stageBtnClick], by simp [listedCmds]⟩
  simp [stageBtnClick] at h1

/-- C3 (amended): every handler that emits one of the listed outbound
commands other than `stage` and `unstage` increments the process counter in
the same synchronous step as the emit; the stage and unstage handlers emit
without incrementing. -/
theorem handlers_bracketing (h : Int → HandlerStep) (hmem : h ∈ outboundHandlers) (c : Int)
    (hcmd : ∃ cmd ∈ (h c).emits, cmd ∈ bracketedCmds) :
    (h c).processCount = c + 1 := by
  fin_cases hmem <;>
    simp_all [savePreferencesBtnClick, saveCredentialsBtnClick, commitBtnClick,
      commitPushBtnClick, fetchBtnClick, pullBtnClick, pushBtnClick, branchBtnClick,
      fileChangeRowClick, stageBtnClick, unstageBtnClick, checkoutRemoteDblClick,
      checkoutDblClick, deleteLocalBranchBtnClick, deleteRemoteBranchBtnClick,
      deleteTagBtnClick, addProcessCount, bracketedCmds]

/-- Witness for `handlers_bracketing`: the commit button handler, run with
counter value 0, emits `commit` and leaves the counter at 1. -/
theorem handlers_bracketing_witness : (commitBtnClick 0).processCount = 0 + 1 :=
  handlers_bracketing commitBtnClick (by simp [outboundHandlers]) 0
    ⟨Cmd.commit, by simp [commitBtnClick], by simp [bracketedCmds]⟩

/-- The three-character ellipsis marker that `truncateFilePathText` prepends. -/
def ellipsis : List Char := ['.', '.', '.']

theorem fitShrink_length (text : List Char) (h : ¬ (ellipsis ++ text.drop 4 = ellipsis)) :
    (ellipsis ++ text.drop 4).length < text.length := by
  have hne : text.drop 4 ≠ [] := by
    intro hnil
    exact h (by simp [hnil])
  have h4 : 4 < text.length := by
    by_contra hle
    push_neg at hle
    exact hne (List.drop_eq_nil_of_le hle)
  have hlen : (ellipsis ++ text.drop 4).length = 3 + (text.length - 4) := by
    simp [ellipsis]
    omega
  omega

/-- The `while` loop of `Main.truncateFilePathText` (`src/unnamed/part_000`
lines 344-351): while the measured width of the current rendered text is at
least the container width `w`, replace the text by
`"..." + text.substring(4)`; if the text has become exactly `"..."`, stop
unconditionally (the source's guard against an unbounded loop). -/
def fitLoop (measure : List Char → Int) (w : Int) (text : List Char) : List Char :=
  if w ≤ measure text then
    if _hstop : ellipsis ++ text.drop 4 = ellipsis then ellipsis
    else fitLoop measure w (ellipsis ++ text.drop 4)
  else text
termination_by text.length
decreasing_by
  exact fitShrink_length text _hstop

/-- The truncation loop as the spec words it (spec section 4.3): repeatedly
remove 4 characters from the front of the current text and re-prepend the
ellipsis, re-measuring after each removal, until the measured width is below
the container width or the text has been reduced to just the ellipsis
marker. -/
def fitLoopSpec (measure : List Char → Int) (w : Int) (text : List Char) : List Char :=
  if measure text < w then text
  else if _hstop : ellipsis ++ text.drop 4 = ellipsis then ellipsis
  else fitLoopSpec measure w (ellipsis ++ text.drop 4)
termination_by text.length
decreasing_by
  exact fitShrink_length text _hstop

/-- The per-label computation of `Main.truncateFilePathText`
(`src/unnamed/part_000` lines 328-354).  The rendered text is first reset to
the original label text; only when both the measured width of that text and
the container width are strictly positive does the code prepend the ellipsis
(when the text does not fit) and run the shrink loop.  `measure` abstracts the
`clientWidth` measurement of a candidate rendered text, `w` is the
container's `clientWidth`. -/
def truncateFilePathText (measure : List Char → Int) (w : Int) (original : List Char) :
    List Char :=
  if 0 < measure original ∧ 0 < w then
    if w ≤ measure original then fitLoop measure w (ellipsis ++ original)
    else original
  else original

/-- The fit algorithm exactly as the spec states it (spec section 4.3), with
no positivity guard: if the measured width of the original text is below the
container width return it unchanged, otherwise prepend the ellipsis and run
the shrink loop. -/
def fitAlgorithmSpec (measure : List Char → Int) (w : Int) (originalText : List Char) :
    List Char :=
  if measure originalText < w then originalText
  else fitLoopSpec measure w (ellipsis ++ originalText)

/-- The spec's algorithm amended with the positivity guard the source
actually has: the whole truncation is skipped (the reset original text is
returned) unless both the measured width of the original text and the
container width are strictly positive. -/
def fitAlgorithmSpecGuarded (measure : List Char → Int) (w : Int)
    (originalText : List Char) : List Char :=
  if 0 < measure originalText ∧ 0 < w then fitAlgorithmSpec measure w originalText
  else originalText

theorem fitLoop_eq_fitLoopSpec (measure : List Char → Int) (w : Int) (text : List Char) :
    fitLoop measure w text = fitLoopSpec measure w text := by
  suffices H : ∀ n, ∀ t : List Char, t.length = n → fitLoop measure w t = fitLoopSpec measure w t
    from H text.length text rfl
  intro n
  induction n using Nat.strong_induction_on with
  | _ n ih =>
      intro t hlen
      rw [fitLoop, fitLoopSpec]
      by_cases hw : w ≤ measure t
      · rw [if_pos hw, if_neg (by omega : ¬ measure t < w)]
        by_cases hel : ellipsis ++ t.drop 4 = ellipsis
        · rw [dif_pos hel, dif_pos hel]
        · rw [dif_neg hel, dif_neg hel]
          exact ih _ (hlen ▸ fitShrink_length t hel) _ rfl
      · rw [if_neg hw, if_pos (by omega : measure t < w)]

theorem fitLoop_post (measure : List Char → Int) (w : Int) (text : List Char) :
    measure (fitLoop measure w text) < w ∨ fitLoop measure w text = ellipsis := by
  suffices H : ∀ n, ∀ t : List Char, t.length = n →
      measure (fitLoop measure w t) < w ∨ fitLoop measure w t = ellipsis
    from H text.length text rfl
  intro n
  induction n using Nat.strong_induction_on with
  | _ n ih =>
      intro t hlen
      rw [fitLoop]
      by_cases hw : w ≤ measure t
      · rw [if_pos hw]
        by_cases hel : ellipsis ++ t.drop 4 = ellipsis
        · rw [dif_pos hel]
          exact Or.inr rfl
        · rw [dif_neg hel]
          exact ih _ (hlen ▸ fitShrink_length t hel) _ rfl
      · rw [if_neg hw]
        exact Or.inl (by omega)

/-- A simple concrete measure: the number of characters of the candidate text
(one pixel per character). -/
def lenMeasure (t : List Char) : Int := (t.length : Int)

/-- C2, counterexample: with container width 0 and the character-count
measure, `truncateFilePathText` returns the original text `"abc"` unchanged —
the positivity guard `txt.clientWidth > 0 && shrunkenTxtContainer.clientWidth > 0`
skips the truncation entirely, so the result is not the all-ellipsis terminal
string. -/
theorem truncate_zero_width_cex :
    truncateFilePathText lenMeasure 0 ['a', 'b', 'c'] = ['a', 'b', 'c'] ∧
      ['a', 'b', 'c'] ≠ ellipsis := by
  constructor
  · decide
  · decide

/-- C2 (amended): for every measure, every container width `w ≤ 0` and every
input string (including lengths 0-3), the fit computation terminates and
returns the original text unchanged — the truncation is skipped by the
positivity guard, and no error or unbounded loop occurs. -/
theorem truncate_zero_width (measure : List Char → Int) (w : Int) (original : List Char)
    (h : w ≤ 0) : truncateFilePathText measure w original = original := by
  have hg : ¬ (0 < measure original ∧ 0 < w) := by
    rintro ⟨_, hw⟩
    omega
  unfold truncateFilePathText
  rw [if_neg hg]

/-- Witness for `truncate_zero_width` at container width 0 and the one-character
string `"a"`. -/
theorem truncate_zero_width_witness :
    (0 : Int) ≤ 0 ∧ truncateFilePathText lenMeasure 0 ['a'] = ['a'] :=
  ⟨le_rfl, truncate_zero_width lenMeasure 0 ['a'] le_rfl⟩

/-- C4, counterexample: with container width 0, the algorithm exactly as the
spec states it (no positivity guard) shrinks `"abc"` all the way down to the
ellipsis terminal string, but the source code returns `"abc"` unchanged, so
the code does not implement exactly the spec's stated algorithm. -/
theorem truncate_vs_spec_algorithm_cex :
    truncateFilePathText lenMeasure 0 ['a', 'b', 'c'] ≠
      fitAlgorithmSpec lenMeasure 0 ['a', 'b', 'c'] := by
  have hcode : truncateFilePathText lenMeasure 0 ['a', 'b', 'c'] = ['a', 'b', 'c'] := by
    decide
  have hspec : fitAlgorithmSpec lenMeasure 0 ['a', 'b', 'c'] = ellipsis := by
    unfold fitAlgorithmSpec
    rw [if_neg (by decide)]
    rw [fitLoopSpec, if_neg (by decide), dif_neg (by decide)]
    rw [fitLoopSpec, if_neg (by decide), dif_neg (by decide)]
    rw [fitLoopSpec, if_neg (by decide), dif_pos (by decide)]
  rw [hcode, hspec]
  decide

/-- C4 (amended): `truncateFilePathText` implements exactly the spec's stated
algorithm once that algorithm is amended with the positivity guard present in
the source: when the measured width of the original text or the container
width is not strictly positive, the original text is returned unchanged;
otherwise the spec's reset/prepend/shrink loop is followed verbatim. -/
theorem truncate_matches_guarded_spec (measure : List Char → Int) (w : Int)
    (original : List Char) :
    truncateFilePathText measure w original = fitAlgorithmSpecGuarded measure w original := by
  unfold truncateFilePathText fitAlgorithmSpecGuarded fitAlgorithmSpec
  by_cases hg : 0 < measure original ∧ 0 < w
  · rw [if_pos hg, if_pos hg]
    by_cases hw : w ≤ measure original
    · rw [if_pos hw, if_neg (by omega : ¬ measure original < w)]
      exact fitLoop_eq_fitLoopSpec measure w _
    · rw [if_neg hw, if_pos (by omega : measure original < w)]
  · rw [if_neg hg, if_neg hg]

theorem truncate_of_lt (measure : List Char → Int) (w : Int) (s : List Char)
    (h : measure s < w) : truncateFilePathText measure w s = s := by
  unfold truncateFilePathText
  by_cases hg : 0 < measure s ∧ 0 < w
  · rw [if_pos hg, if_neg (by omega : ¬ w ≤ measure s)]
  · rw [if_neg hg]

theorem truncate_ellipsis (measure : List Char → Int) (w : Int)
    (hmono : ∀ a b : List Char, a <:+ b → measure a ≤ measure b) (hw : 0 < w) :
    truncateFilePathText measure w ellipsis = ellipsis := by
  by_cases hcase : w ≤ measure ellipsis
  · unfold truncateFilePathText
    rw [if_pos ⟨by omega, hw⟩, if_pos hcase]
    have h1 : w ≤ measure (ellipsis ++ ellipsis) :=
      le_trans hcase (hmono _ _ ⟨ellipsis, rfl⟩)
    rw [fitLoop, if_pos h1, dif_neg (by decide)]
    have e2 : ellipsis ++ (ellipsis ++ ellipsis).drop 4 = ['.', '.'] ++ ellipsis := rfl
    rw [e2]
    have h2 : w ≤ measure (['.', '.'] ++ ellipsis) :=
      le_trans hcase (hmono _ _ ⟨['.', '.'], rfl⟩)
    rw [fitLoop, if_pos h2, dif_neg (by decide)]
    have e3 : ellipsis ++ ((['.', '.'] ++ ellipsis).drop 4) = ['.'] ++ ellipsis := rfl
    rw [e3]
    have h3 : w ≤ measure (['.'] ++ ellipsis) :=
      le_trans hcase (hmono _ _ ⟨['.'], rfl⟩)
    rw [fitLoop, if_pos h3, dif_pos (by decide)]
  · exact truncate_of_lt measure w ellipsis (by omega)

/-- C5, counterexample: `truncateFilePathText` is not idempotent for every
measure function.  Under `mBad` (defined below) with container width 1, the
string `"a"` truncates to `"..."`, but truncating `"..."` again yields
`"......"`: the re-run prepends a second ellipsis and then exits its loop
immediately because the measured width of `"......"` is 0. -/
def mBad (t : List Char) : Int :=
  if t = ['a'] ∨ t = ellipsis ∨ t = ellipsis ++ ['a'] then 5 else 0

/-- C5, counterexample theorem: re-running the fit on its own output changes
the output, refuting idempotence for arbitrary measure functions. -/
theorem truncate_idempotent_cex :
    truncateFilePathText mBad 1 (truncateFilePathText mBad 1 ['a']) ≠
      truncateFilePathText mBad 1 ['a'] := by
  have h1 : truncateFilePathText mBad 1 ['a'] = ellipsis := by
    unfold truncateFilePathText
    rw [if_pos (by decide), if_pos (by decide)]
    rw [fitLoop, if_pos (by decide), dif_pos (by decide)]
  have h2 : truncateFilePathText mBad 1 ellipsis = ellipsis ++ ellipsis := by
    unfold truncateFilePathText
    rw [if_pos (by decide), if_pos (by decide)]
    rw [fitLoop, if_neg (by decide)]
  rw [h1, h2]
  decide

/-- C5 (amended): `truncateFilePathText` is idempotent for every measure
function that is monotone under prepending — whenever `a` is a suffix of `b`
the measured width of `a` is at most that of `b` (true of any real pixel-width
measurement) — for every container width and every input string. -/
theorem truncate_idempotent (measure : List Char → Int) (w : Int) (s : List Char)
    (hmono : ∀ a b : List Char, a <:+ b → measure a ≤ measure b) :
    truncateFilePathText measure w (truncateFilePathText measure w s) =
      truncateFilePathText measure w s := by
  by_cases hg : 0 < measure s ∧ 0 < w
  · by_cases hw : w ≤ measure s
    · have hout : truncateFilePathText measure w s = fitLoop measure w (ellipsis ++ s) := by
        unfold truncateFilePathText
        rw [if_pos hg, if_pos hw]
      rw [hout]
      rcases fitLoop_post measure w (ellipsis ++ s) with hlt | hel
      · exact truncate_of_lt measure w _ hlt
      · rw [hel]
        exact truncate_ellipsis measure w hmono hg.2
    · have hout : truncateFilePathText measure w s = s := by
        unfold truncateFilePathText
        rw [if_pos hg, if_neg hw]
      rw [hout]
      exact hout
  · have hout : truncateFilePathText measure w s = s := by
      unfold truncateFilePathText
      rw [if_neg hg]
    rw [hout]
    exact hout

/-- Witness for `truncate_idempotent` at the character-count measure,
container width 2 and the string `"abcde"`. -/
theorem truncate_idempotent_witness :
    truncateFilePathText lenMeasure 2
        (truncateFilePathText lenMeasure 2 ['a', 'b', 'c', 'd', 'e']) =
      truncateFilePathText lenMeasure 2 ['a', 'b', 'c', 'd', 'e'] :=
  truncate_idempotent lenMeasure 2 ['a', 'b', 'c', 'd', 'e']
    (fun a b h => by
      simp only [lenMeasure]
      exact_mod_cast h.length_le)

/-- A node of the branch/tag tree payload delivered to `updateBranchInfo`:
its display text (one path segment) and its children.  Leaf metadata
(`branch_info`) is irrelevant to the reconciliation properties and omitted. -/
inductive TreeNode where
  | node (text : List Char) (children : List TreeNode)

/-- The `ul` container id of the local-branches tree root. -/
def localBranchesId : List Char := "localBranches".toList

/-- The `ul` container id of the remote-branches tree root. -/
def remoteBranchesId : List Char := "remoteBranches".toList

/-- The `ul` container id of the tags tree root. -/
def tagsId : List Char := "tags".toList

/-- The ids that `Main.buildBranchResultHTML` (`src/unnamed/part_000` lines
417-462) assigns to the nested `ul` containers, in document order: for each
child that itself has children, the id is the parent id joined with the
child's text by a single dash (`newParentTxt = parentTxt + '-' + child.text`),
recursively; leaf rows get no id. -/
def buildIds : List Char → List TreeNode → List (List Char)
  | _, [] => []
  | p, TreeNode.node txt cs :: rest =>
      (if cs.isEmpty then [] else (p ++ '-' :: txt) :: buildIds (p ++ '-' :: txt) cs)
      ++ buildIds p rest

/-- The JavaScript `activeTreeIds.join(",#")`: the captured ids separated by
the two characters `,#`. -/
def joinSelector : List (List Char) → List Char
  | [] => []
  | [x] => x
  | x :: xs => x ++ ',' :: '#' :: joinSelector xs

/-- The selector string `"#" + activeTreeIds.join(",#")` built by
`Main.updateBranchInfo` (line 485). -/
def activeTreeIdsSelector (active : List (List Char)) : List Char :=
  '#' :: joinSelector active

/-- A character the model accepts inside a CSS identifier: ASCII letters,
digits, dash and underscore.  This is a strict under-approximation of the CSS
identifier grammar (which also admits escapes and non-ASCII); every string
the model accepts is a genuinely valid identifier. -/
def cssIdentChar (c : Char) : Bool :=
  c.isAlpha || c.isDigit || c == '-' || c == '_'

/-- A plain CSS identifier in the modeled fragment: non-empty, starting with
an ASCII letter or underscore, continuing with `cssIdentChar`s.  Every id the
trees generate from dot-free, metacharacter-free branch segments (they all
start with `localBranches`, `remoteBranches` or `tags`) is of this form. -/
def cssIdentPiece : List Char → Bool
  | [] => false
  | c :: rest => (c.isAlpha || c == '_') && rest.all cssIdentChar

/-- Split a captured id at every `'.'` (the class-selector delimiter of
CSS). -/
def splitOnDot : List Char → List (List Char)
  | [] => [[]]
  | c :: rest =>
      if c = '.' then [] :: splitOnDot rest
      else
        match splitOnDot rest with
        | [] => [[c]]
        | p :: ps => (c :: p) :: ps

/-- Parse the selector token `"#" ++ s` that one captured id `s` contributes
to the jQuery selector, on the modeled fragment of CSS: the token is
`#p0.p1...pk` where `p0.p1...pk` are the dot-separated pieces of `s`.  If
every piece is a plain identifier the token denotes an id constraint `p0`
plus class constraints `p1..pk` (for a dot-free `s` this is plain id
selection).  Any other token is rejected as a selector syntax error — exact
for the metacharacters git ref names may actually contain such as `%`, `;`
or `(`, and for empty pieces (`..`, a trailing `.`); tokens with exotic
characters outside the fragment (e.g. a `,`, which in full CSS splits the
selector list) are conservatively reported as errors too, and no theorem
below depends on their behavior. -/
def parseToken (s : List Char) : Option (List Char × List (List Char)) :=
  match splitOnDot s with
  | [] => none
  | p0 :: cls => if (p0 :: cls).all cssIdentPiece then some (p0, cls) else none

/-- Parse every token of the comma-joined selector: jQuery parses the whole
selector string up front, so a single bad token makes the whole call
throw. -/
def parseTokens : List (List Char) → Option (List (List Char × List (List Char)))
  | [] => some []
  | s :: rest =>
      match parseToken s, parseTokens rest with
      | some tok, some toks => some (tok :: toks)
      | _, _ => none

/-- A DOM element of the rebuilt trees as far as selector matching is
concerned: its id and its classes. -/
structure DomElem where
  elemId : List Char
  classes : List (List Char)
deriving DecidableEq, Repr

/-- The class `nested` carried by every nested `ul`
(`src/unnamed/part_000` line 422). -/
def nestedClass : List Char := "nested".toList

/-- The class `sub-tree-view` carried by every nested `ul` (line 422). -/
def subTreeViewClass : List Char := "sub-tree-view".toList

/-- The id-bearing elements produced by rebuilding the three trees: one `ul`
per interior node, with id as computed by `buildBranchResultHTML` and classes
`nested sub-tree-view` (line 422).  Static page elements outside the three
trees are not modeled. -/
def treeDomElems (localTree remoteTree tagTree : List TreeNode) : List DomElem :=
  (buildIds localBranchesId localTree ++ buildIds remoteBranchesId remoteTree
      ++ buildIds tagsId tagTree).map
    (fun i => ⟨i, [nestedClass, subTreeViewClass]⟩)

/-- Whether a parsed token (id constraint plus class constraints) matches an
element: the element's id equals the token's id piece and the element carries
every one of the token's class pieces. -/
def elemMatches (tok : List Char × List (List Char)) (e : DomElem) : Bool :=
  (e.elemId == tok.1) && tok.2.all (fun cl => decide (cl ∈ e.classes))

/-- `$("#" + active.join(",#"))` applied to the modeled document `dom`:

* an empty `active` gives the selector `"#"`, which is not a valid CSS
  selector — `document.querySelectorAll` and jQuery reject it with a syntax
  error, so the call throws;
* otherwise every token must parse in the modeled fragment (`parseToken`),
  a single bad token failing the whole selector;
* the result is the elements of `dom`, in document order, matched by at
  least one token (the comma list is a disjunction in CSS). -/
def selectAll (active : List (List Char)) (dom : List DomElem) :
    Except Unit (List DomElem) :=
  if active = [] then Except.error ()
  else
    match parseTokens active with
    | none => Except.error ()
    | some toks => Except.ok (dom.filter (fun e => toks.any (fun tok => elemMatches tok e)))

/-- `Main.updateBranchInfo` (`src/unnamed/part_000` lines 464-490), viewed as
a function from the captured expansion state (the ids of the `ul`s carrying
class `active-tree` before the rebuild) and the three new trees to the ids of
the elements actually re-expanded.  The three trees are rebuilt with fresh
ids via `buildBranchResultHTML`, then the selector
`"#" + activeTreeIds.join(",#")` is applied (`selectAll`) and every matched
element is re-marked expanded; the result is their id list, or the selector
error when the jQuery call throws. -/
def updateBranchInfo (activeTreeIds : List (List Char))
    (localTree remoteTree tagTree : List TreeNode) : Except Unit (List (List Char)) :=
  match selectAll activeTreeIds (treeDomElems localTree remoteTree tagTree) with
  | Except.error e => Except.error e
  | Except.ok es => Except.ok (es.map DomElem.elemId)

theorem splitOnDot_no_dot : ∀ (s : List Char), '.' ∉ s → splitOnDot s = [s] := by
  intro s
  induction s with
  | nil => intro _; rfl
  | cons c rest ih =>
      intro h
      have hc : ¬ c = '.' := by
        intro hcc
        subst hcc
        exact h (List.mem_cons_self _ _)
      have hrest : '.' ∉ rest := fun hm => h (List.mem_cons_of_mem _ hm)
      simp only [splitOnDot]
      rw [if_neg hc, ih hrest]

theorem cssIdentPiece_no_dot (s : List Char) (h : cssIdentPiece s = true) : '.' ∉ s := by
  cases s with
  | nil => simp
  | cons c rest =>
      simp only [cssIdentPiece, Bool.and_eq_true] at h
      intro hmem
      rcases List.mem_cons.mp hmem with hmem | hmem
      · subst hmem
        exact absurd h.1 (by decide)
      · exact absurd (List.all_eq_true.mp h.2 '.' hmem) (by decide)

theorem parseToken_plain (s : List Char) (h : cssIdentPiece s = true) :
    parseToken s = some (s, []) := by
  unfold parseToken
  rw [splitOnDot_no_dot s (cssIdentPiece_no_dot s h)]
  simp [h]

theorem parseTokens_plain :
    ∀ (active : List (List Char)), (∀ s ∈ active, cssIdentPiece s = true) →
      parseTokens active =
        some (active.map (fun s => (s, ([] : List (List Char))))) := by
  intro active
  induction active with
  | nil => intro _; rfl
  | cons s rest ih =>
      intro h
      have hs := parseToken_plain s (h s (List.mem_cons_self _ _))
      have hrest := ih (fun x hx => h x (List.mem_cons_of_mem _ hx))
      simp only [parseTokens, hs, hrest, List.map_cons]

/-- C8, counterexample: the original claim fails once captured ids contain
legal-in-git CSS metacharacters.  With the single expanded id
`localBranches-a.nested` captured (branch segment `a.nested`) and a new tree
whose only interior node is `a`, the selector `#localBranches-a.nested`
matches the `ul` with id `localBranches-a` and class `nested` — re-expanding
a node whose id is not in the captured set, violating the subset property.
And with the captured id `localBranches-a%b` (branch segment `a%b`), the
selector is syntactically invalid and the jQuery call throws even though the
captured state is non-empty, violating the no-error property. -/
theorem updateBranchInfo_subset_cex :
    (updateBranchInfo ["localBranches-a.nested".toList]
        [TreeNode.node ['a'] [TreeNode.node ['x'] []]] [] [] =
      Except.ok ["localBranches-a".toList] ∧
      "localBranches-a".toList ∉ (["localBranches-a.nested".toList] : List (List Char))) ∧
    ((["localBranches-a%b".toList] : List (List Char)) ≠ [] ∧
      updateBranchInfo ["localBranches-a%b".toList]
        [TreeNode.node ['a'] [TreeNode.node ['x'] []]] [] [] = Except.error ()) := by
  have hdom : treeDomElems [TreeNode.node ['a'] [TreeNode.node ['x'] []]] [] [] =
      [⟨"localBranches-a".toList, [nestedClass, subTreeViewClass]⟩] := by
    simp only [treeDomElems, buildIds]
    decide
  refine ⟨⟨?_, by decide⟩, by decide, ?_⟩
  · unfold updateBranchInfo
    rw [hdom]
    rfl
  · unfold updateBranchInfo
    rw [hdom]
    rfl

/-- C8 (amended): for every non-empty captured expansion state all of whose
ids are plain CSS identifiers in the modeled fragment (letter-initial runs of
letters, digits, dashes and underscores — in particular dot- and
metacharacter-free, which holds for every id the trees generate from such
branch segments), the reconciliation succeeds with no error; every
re-expanded id is a member of the captured state; and a captured id that does
not occur among the new trees' ids is simply absent from the re-expanded
set. -/
theorem updateBranchInfo_subset (active : List (List Char))
    (l r t : List TreeNode) (hne : active ≠ [])
    (hplain : ∀ s ∈ active, cssIdentPiece s = true) :
    ∃ realized, updateBranchInfo active l r t = Except.ok realized ∧
      (∀ i ∈ realized, i ∈ active) ∧
      (∀ i ∈ active,
        i ∉ buildIds localBranchesId l ++ buildIds remoteBranchesId r ++ buildIds tagsId t →
          i ∉ realized) := by
  have htoks := parseTokens_plain active hplain
  refine ⟨((treeDomElems l r t).filter
      (fun e => (active.map (fun s => (s, ([] : List (List Char))))).any
        (fun tok => elemMatches tok e))).map DomElem.elemId, ?_, ?_, ?_⟩
  · unfold updateBranchInfo selectAll
    rw [if_neg hne, htoks]
  · intro i hi
    rcases List.mem_map.mp hi with ⟨e, he, rfl⟩
    rcases List.any_eq_true.mp (List.mem_filter.mp he).2 with ⟨tok, htok, hm⟩
    rcases List.mem_map.mp htok with ⟨s, hs, rfl⟩
    have heq : e.elemId = s := by simpa [elemMatches] using hm
    rw [heq]
    exact hs
  · intro i hact hnot hmem
    rcases List.mem_map.mp hmem with ⟨e, he, rfl⟩
    have hin : e ∈ treeDomElems l r t := (List.mem_filter.mp he).1
    unfold treeDomElems at hin
    rcases List.mem_map.mp hin with ⟨i0, hi0, rfl⟩
    exact hnot hi0

/-- Witness for `updateBranchInfo_subset`: a one-element expansion state
holding the plain id `localBranches-a`, and a new tree in which `a` is again
an interior node. -/
theorem updateBranchInfo_subset_witness :
    (["localBranches-a".toList] : List (List Char)) ≠ [] ∧
      (∀ s ∈ (["localBranches-a".toList] : List (List Char)), cssIdentPiece s = true) ∧
      (∃ realized,
        updateBranchInfo ["localBranches-a".toList]
            [TreeNode.node ['a'] [TreeNode.node ['b'] []]] [] [] = Except.ok realized ∧
        (∀ i ∈ realized, i ∈ (["localBranches-a".toList] : List (List Char))) ∧
        (∀ i ∈ (["localBranches-a".toList] : List (List Char)),
          i ∉ buildIds localBranchesId [TreeNode.node ['a'] [TreeNode.node ['b'] []]] ++
              buildIds remoteBranchesId [] ++ buildIds tagsId [] →
            i ∉ realized)) :=
  ⟨by decide, by decide,
    updateBranchInfo_subset ["localBranches-a".toList]
      [TreeNode.node ['a'] [TreeNode.node ['b'] []]] [] [] (by decide) (by decide)⟩

/-- C9: when the captured expansion state is empty (no tree node was
expanded), the code builds the selector `"#" + [].join(",#") = "#"`, an
invalid CSS selector, and the jQuery call raises a syntax error instead of
completing: the reconciliation pass fails for every new tree. -/
theorem updateBranchInfo_empty_error (l r t : List TreeNode) :
    activeTreeIdsSelector [] = ['#'] ∧ updateBranchInfo [] l r t = Except.error () := by
  constructor
  · rfl
  · unfold updateBranchInfo selectAll
    rw [if_pos rfl]

/-- The path identity `Main.buildBranchResultHTML` computes for an interior
node reached by the segment sequence `segs` below the container id `root`:
each level appends a dash and the child's segment text. -/
def pathId (root : List Char) (segs : List (List Char)) : List Char :=
  segs.foldl (fun acc s => acc ++ '-' :: s) root

/-- The dash-joined encoding of a segment sequence (the part of a path
identity after the container id). -/
def dashEncode : List (List Char) → List Char
  | [] => []
  | s :: rest => '-' :: (s ++ dashEncode rest)

theorem pathId_eq_append :
    ∀ (segs : List (List Char)) (root : List Char),
      pathId root segs = root ++ dashEncode segs := by
  intro segs
  induction segs with
  | nil => intro root; simp [pathId, dashEncode]
  | cons s rest ih =>
      intro root
      have hstep : pathId root (s :: rest) = pathId (root ++ '-' :: s) rest := rfl
      rw [hstep, ih (root ++ '-' :: s)]
      simp [dashEncode, List.append_assoc]

theorem dashFree_append_inj :
    ∀ (x y a b : List Char), '-' ∉ x → '-' ∉ y →
      (a = [] ∨ ∃ a2, a = '-' :: a2) → (b = [] ∨ ∃ b2, b = '-' :: b2) →
      x ++ a = y ++ b → x = y ∧ a = b := by
  intro x
  induction x with
  | nil =>
      intro y a b _ hy ha _ heq
      cases y with
      | nil => exact ⟨rfl, by simpa using heq⟩
      | cons d y2 =>
          simp only [List.nil_append, List.cons_append] at heq
          rcases ha with ha | ⟨a2, ha⟩
          · subst ha
            exact absurd heq (by simp)
          · subst ha
            injection heq with h1 h2
            subst h1
            exact absurd (List.mem_cons_self _ _) hy
  | cons c x2 ih =>
      intro y a b hx hy ha hb heq
      cases y with
      | nil =>
          simp only [List.cons_append, List.nil_append] at heq
          rcases hb with hb | ⟨b2, hb⟩
          · subst hb
            exact absurd heq (by simp)
          · subst hb
            injection heq with h1 h2
            subst h1
            exact absurd (List.mem_cons_self _ _) hx
      | cons d y2 =>
          simp only [List.cons_append] at heq
          injection heq with h1 h2
          subst h1
          have hx2 : '-' ∉ x2 := fun hm => hx (List.mem_cons_of_mem _ hm)
          have hy2 : '-' ∉ y2 := fun hm => hy (List.mem_cons_of_mem _ hm)
          obtain ⟨hxy, hab⟩ := ih y2 a b hx2 hy2 ha hb h2
          exact ⟨by rw [hxy], hab⟩

theorem dashEncode_shape (l : List (List Char)) :
    dashEncode l = [] ∨ ∃ t2, dashEncode l = '-' :: t2 := by
  cases l with
  | nil => exact Or.inl rfl
  | cons s r => exact Or.inr ⟨s ++ dashEncode r, rfl⟩

theorem dashEncode_inj :
    ∀ (xs ys : List (List Char)), (∀ s ∈ xs, '-' ∉ s) → (∀ s ∈ ys, '-' ∉ s) →
      dashEncode xs = dashEncode ys → xs = ys := by
  intro xs
  induction xs with
  | nil =>
      intro ys _ _ heq
      cases ys with
      | nil => rfl
      | cons y yr => exact absurd heq (by simp [dashEncode])
  | cons x xr ih =>
      intro ys hx hy heq
      cases ys with
      | nil => exact absurd heq (by simp [dashEncode])
      | cons y yr =>
          simp only [dashEncode] at heq
          injection heq with _ h2
          obtain ⟨hxy, henc⟩ := dashFree_append_inj x y (dashEncode xr) (dashEncode yr)
            (hx x (List.mem_cons_self x xr)) (hy y (List.mem_cons_self y yr))
            (dashEncode_shape xr) (dashEncode_shape yr) h2
          have htail := ih yr (fun s hs => hx s (List.mem_cons_of_mem _ hs))
            (fun s hs => hy s (List.mem_cons_of_mem _ hs)) henc
          rw [hxy, htail]

/-- A rendered tree containing two distinct interior segment sequences,
`a-b` and `a, b`, whose computed ids collide. -/
def exDupTree : List TreeNode :=
  [TreeNode.node ['a', '-', 'b'] [TreeNode.node ['x'] []],
   TreeNode.node ['a'] [TreeNode.node ['b'] [TreeNode.node ['x'] []]]]

/-- C10, counterexample: the distinct segment sequences `["a-b"]` and
`["a", "b"]` below the same container receive the same id, and a rendered
tree containing both interior paths produces a duplicated id list — the
dash-joined path identity is not injective when a segment text itself
contains a dash. -/
theorem pathId_injective_cex :
    pathId localBranchesId [['a', '-', 'b']] = pathId localBranchesId [['a'], ['b']] ∧
      ([['a', '-', 'b']] : List (List Char)) ≠ [['a'], ['b']] ∧
      ¬ (buildIds localBranchesId exDupTree).Nodup := by
  refine ⟨rfl, by decide, ?_⟩
  have hb : buildIds localBranchesId exDupTree =
      [localBranchesId ++ '-' :: ['a', '-', 'b'], localBranchesId ++ '-' :: ['a'],
       (localBranchesId ++ '-' :: ['a']) ++ '-' :: ['b']] := by
    simp [buildIds, exDupTree]
  rw [hb]
  decide

/-- C10 (amended): the dash-joined path identity is injective on segment
sequences none of whose segment texts contains the joining character `'-'`:
two distinct such sequences below the same container always receive
different ids. -/
theorem pathId_dashfree_injective (root : List Char) (xs ys : List (List Char))
    (hx : ∀ s ∈ xs, '-' ∉ s) (hy : ∀ s ∈ ys, '-' ∉ s) (hne : xs ≠ ys) :
    pathId root xs ≠ pathId root ys := by
  intro heq
  apply hne
  rw [pathId_eq_append, pathId_eq_append] at heq
  exact dashEncode_inj xs ys hx hy (List.append_cancel_left heq)

/-- Witness for `pathId_dashfree_injective`: the dash-free segment sequences
`["a"]` and `["b"]` receive different ids below the local-branches
container. -/
theorem pathId_dashfree_injective_witness :
    pathId localBranchesId [['a']] ≠ pathId localBranchesId [['b']] :=
  pathId_dashfree_injective localBranchesId [['a']] [['b']] (by decide) (by decide)
    (by decide)

end OGF
